import Mathlib

/-!
Verification of the LibUThread user-space threading runtime.

This file shallowly embeds the parts of the C sources that the checked
properties speak about: the mutex (src/mutex.c), the semaphore
(src/semaphore.c), the condition variable (src/condvar.c), the CFS
preemption test (src/sched_cfs.c), the multi-level priority run queue
(src/sched_priority.c), and the join/exit lifecycle (src/uthread.c,
src/context.c).  Machine integers are modelled as `Nat`/`Int`, with
reductions modulo `2 ^ 64` or `2 ^ 32` exactly where the C code computes
in `uint64_t`/`uint32_t`/`int`.
-/

namespace LibUThread

/-- Thread identifier: stands for a `struct uthread_internal *`.
Distinct live threads have distinct identifiers. -/
abbrev Tid := Nat

/-! ## Error codes (include/uthread.h) -/

def UTHREAD_SUCCESS : Int := 0
def UTHREAD_EINVAL : Int := 22
def UTHREAD_ENOMEM : Int := 12
def UTHREAD_EBUSY : Int := 16
def UTHREAD_EDEADLK : Int := 35
def UTHREAD_EPERM : Int := 1
def UTHREAD_ETIMEDOUT : Int := 110
def UTHREAD_EAGAIN : Int := 11

/-! ## Mutex (src/mutex.c, include/uthread.h) -/

/-- Mutex type, from `uthread_mutex_type_t`. -/
inductive MutexType where
  | normal
  | recursive
  | errorcheck
deriving DecidableEq, Repr

/-- The fields of `uthread_mutex_t` that the mutex functions read and
write.  `waiters` is the FIFO wait queue contents (head first); the C
struct stores a pointer to it, allocated on `init` or lazily. -/
structure Mutex where
  lock : Nat
  owner : Option Tid
  waiters : List Tid
  type : MutexType
  recursion_count : Int
  initialized : Bool
deriving DecidableEq, Repr

/-- Head removal of `wait_queue_wake_one` as it affects the queue
contents: `wait_queue_remove` pops the head (a no-op on an empty
queue); the woken thread is handed to `scheduler_unblock`. -/
def wake_one (q : List Tid) : List Tid := q.tail

/-- Shallow embedding of `uthread_mutex_unlock` (src/mutex.c:236-280)
for a non-null mutex.  `self` is `scheduler_current()`, which the C
code compares against `mutex->owner` by pointer equality. -/
def uthread_mutex_unlock (m : Mutex) (self : Option Tid) : Int × Mutex :=
  if !m.initialized then
    (UTHREAD_EINVAL, m)
  else if m.type = MutexType.errorcheck ∧ m.owner ≠ self then
    (UTHREAD_EPERM, m)
  else
    -- recursive branch: decrement, and return if still positive
    let dec := m.type = MutexType.recursive ∧ m.owner = self
    let m₁ := if dec then { m with recursion_count := m.recursion_count - 1 } else m
    if dec ∧ m₁.recursion_count > 0 then
      (UTHREAD_SUCCESS, m₁)
    else
      -- release the lock and wake one waiting thread
      (UTHREAD_SUCCESS,
        { m₁ with lock := 0, owner := none, recursion_count := 0,
                  waiters := wake_one m₁.waiters })

/-- Lazy initialization performed at the top of `uthread_mutex_lock`
and `uthread_mutex_trylock` for statically initialized mutexes: the C
code allocates the wait queue (contents empty, as the queue-list model
already records) and sets `initialized`. -/
def mutexLazyInit (m : Mutex) : Mutex :=
  if m.initialized then m else { m with initialized := true }

/-- Shallow embedding of `uthread_mutex_trylock` (src/mutex.c:191-234)
for a non-null mutex. -/
def uthread_mutex_trylock (m₀ : Mutex) (self : Option Tid) : Int × Mutex :=
  let m := mutexLazyInit m₀
  if m.owner = self ∧ m.type = MutexType.recursive then
    (UTHREAD_SUCCESS, { m with recursion_count := m.recursion_count + 1 })
  else if m.owner = self ∧ m.type = MutexType.errorcheck then
    (UTHREAD_EBUSY, m)  -- not EDEADLK for trylock
  else if m.lock = 0 then
    (UTHREAD_SUCCESS, { m with lock := 1, owner := self, recursion_count := 1 })
  else
    (UTHREAD_EBUSY, m)

/-- Shallow embedding of the non-blocking paths of `uthread_mutex_lock`
(src/mutex.c:129-189) for a non-null mutex.  When the lock is held
by another thread the function blocks in its acquisition loop; the
embedding returns `none` for that case. -/
def uthread_mutex_lock (m₀ : Mutex) (self : Option Tid) : Option (Int × Mutex) :=
  let m := mutexLazyInit m₀
  if m.owner = self ∧ m.type = MutexType.recursive then
    some (UTHREAD_SUCCESS, { m with recursion_count := m.recursion_count + 1 })
  else if m.owner = self ∧ m.type = MutexType.errorcheck then
    some (UTHREAD_EDEADLK, m)
  else if m.lock ≠ 0 then
    none  -- blocks: marks self BLOCKED, enqueues on waiters, schedules
  else
    some (UTHREAD_SUCCESS, { m with lock := 1, owner := self, recursion_count := 1 })

/-- A recursive mutex held by thread `a` with recursion count `k` and
wait queue `w`, as produced by `k` nested `uthread_mutex_lock` calls. -/
def recMutexHeld (a : Tid) (k : Int) (w : List Tid) : Mutex :=
  { lock := 1, owner := some a, waiters := w, type := MutexType.recursive,
    recursion_count := k, initialized := true }

/-- A freshly initialized, unlocked recursive mutex
(`uthread_mutex_init` with a `UTHREAD_MUTEX_RECURSIVE` attribute). -/
def recMutexInit : Mutex :=
  { lock := 0, owner := none, waiters := [], type := MutexType.recursive,
    recursion_count := 0, initialized := true }

/-- Iterate `uthread_mutex_lock` by thread `a`, `n` times. -/
def lockIter (a : Tid) : Nat → Mutex → Option Mutex
  | 0, m => some m
  | n + 1, m =>
    match uthread_mutex_lock m (some a) with
    | some (_, m') => lockIter a n m'
    | none => none

/-- Iterate `uthread_mutex_unlock` by thread `a`, `n` times. -/
def unlockIter (a : Tid) : Nat → Mutex → Mutex
  | 0, m => m
  | n + 1, m => unlockIter a n (uthread_mutex_unlock m (some a)).2

/-- The state `uthread_mutex_unlock` leaves a recursive mutex in when
it takes the release path: lock cleared, owner cleared, count zeroed,
one waiter woken. -/
def releasedRecMutex (w : List Tid) : Mutex :=
  { lock := 0, owner := none, waiters := wake_one w, type := MutexType.recursive,
    recursion_count := 0, initialized := true }

/-! ## CFS preemption test (src/sched_cfs.c, src/internal.h) -/

/-- The modulus of `uint64_t` arithmetic. -/
def U64 : Nat := 2 ^ 64

/-- CFS_MIN_GRANULARITY_NS, 1 ms (src/internal.h:34). -/
def CFS_MIN_GRANULARITY_NS : Nat := 1 * 1000 * 1000

/-- Subtraction of `uint64_t` values as the C expression `x - y`
computes it: modulo `2 ^ 64`, wrapping around when `y > x`. -/
def sub64 (x y : Nat) : Nat := (x % U64 + (U64 - y % U64)) % U64

/-- The fields of the current thread that `cfs_should_preempt` reads:
`vruntime` and `timeslice_remaining`, both `uint64_t`. -/
structure CfsThread where
  vruntime : Nat
  timeslice_remaining : Nat
deriving DecidableEq, Repr

/-- Shallow embedding of `cfs_should_preempt` (src/sched_cfs.c:413-433).
`count` is `g_cfs_state.count` (a C `int`); `leftmost` is the vruntime
of the cached leftmost tree node, or `none` when the tree is empty
(`rb_leftmost()` returned NULL).  The vruntime comparison is the
`uint64_t` expression `current->vruntime - leftmost->vruntime`
compared against CFS_MIN_GRANULARITY_NS. -/
def cfs_should_preempt (current : Option CfsThread) (count : Int)
    (leftmost : Option Nat) : Bool :=
  match current with
  | none => false
  | some c =>
    if c.timeslice_remaining = 0 then
      decide (0 < count)
    else
      match leftmost with
      | some lv => decide (CFS_MIN_GRANULARITY_NS < sub64 c.vruntime lv)
      | none => false

/-- The preemption predicate as the claim words it: preempt when the
timeslice is exhausted and another thread is queued, or when the
leftmost thread's vruntime is below the current thread's by more than
CFS_MIN_GRANULARITY_NS — a true mathematical comparison, returning
false whenever the leftmost's vruntime is at least the current one. -/
def cfs_should_preempt_claim (c : CfsThread) (count : Int)
    (leftmost : Option Nat) : Bool :=
  (decide (c.timeslice_remaining = 0) && decide (0 < count)) ||
  (match leftmost with
   | some lv => decide (lv + CFS_MIN_GRANULARITY_NS < c.vruntime)
   | none => false)

/-! ## Thread creation stack sizing (src/uthread.c) -/

def UTHREAD_STACK_MIN : Nat := 16 * 1024
def UTHREAD_STACK_MAX : Nat := 8 * 1024 * 1024
def UTHREAD_STACK_DEFAULT : Nat := 64 * 1024

/-- The fields of `uthread_attr_t` that stack sizing reads. -/
structure UthreadAttr where
  stack_size : Nat
  priority : Int
  nice : Int
deriving DecidableEq, Repr

/-- Attribute defaults set by `uthread_attr_init` (src/uthread.c:458-471). -/
def uthread_attr_init : UthreadAttr :=
  { stack_size := UTHREAD_STACK_DEFAULT, priority := 16, nice := 0 }

/-- Shallow embedding of `uthread_attr_setstacksize`
(src/uthread.c:482-494): rejects sizes outside
[UTHREAD_STACK_MIN, UTHREAD_STACK_MAX]. -/
def uthread_attr_setstacksize (attr : UthreadAttr) (size : Nat) : Int × UthreadAttr :=
  if size < UTHREAD_STACK_MIN ∨ UTHREAD_STACK_MAX < size then
    (UTHREAD_EINVAL, attr)
  else
    (UTHREAD_SUCCESS, { attr with stack_size := size })

/-- The stack size a successful `uthread_create` gives the new thread
(src/uthread.c:180-195 together with `thread_setup_stack`, which
stores the requested size unchanged): the attribute's size whenever it
is at least UTHREAD_STACK_MIN, the 64 KiB default otherwise or when no
attribute is supplied.  No upper bound is checked. -/
def uthread_create_stack_size (attr : Option UthreadAttr) : Nat :=
  match attr with
  | none => UTHREAD_STACK_DEFAULT
  | some a =>
    if UTHREAD_STACK_MIN ≤ a.stack_size then a.stack_size else UTHREAD_STACK_DEFAULT

/-! ## Semaphore (src/semaphore.c) -/

/-- Conversion of a C `unsigned int` to `int` by two's-complement
wrap, as `(int)value` behaves in the source's target environments. -/
def toInt32 (v : Nat) : Int :=
  let r : Nat := v % 2 ^ 32
  if r < 2 ^ 31 then (r : Int) else (r : Int) - 2 ^ 32

/-- The fields of `uthread_sem_t`: a C `int` value (modelled as an
unbounded `Int`; the claims only exercise small deltas), the waiter
queue contents, and the initialized flag. -/
structure Sem where
  value : Int
  waiters : List Tid
  initialized : Bool
deriving DecidableEq, Repr

/-- Shallow embedding of `uthread_sem_init` (src/semaphore.c:19-43)
for a non-null semaphore: rejects `pshared != 0`, stores
`(int)value`, and allocates an empty wait queue. -/
def uthread_sem_init (pshared : Int) (value : Nat) : Int × Option Sem :=
  if pshared ≠ 0 then
    (UTHREAD_EINVAL, none)
  else
    (UTHREAD_SUCCESS, some { value := toInt32 value, waiters := [], initialized := true })

/-- Shallow embedding of `uthread_sem_getvalue`
(src/semaphore.c:217-232): stores the current value through `sval`. -/
def uthread_sem_getvalue (s : Sem) : Int × Option Int :=
  if !s.initialized then (UTHREAD_EINVAL, none)
  else (UTHREAD_SUCCESS, some s.value)

/-- The completed semaphore operations that touch an initialized
semaphore, as they linearize on the single execution stream (every
read-modify-write below runs under `preemption_disable`):
`post` is a successful `uthread_sem_post`; `waitOk`, `trywaitOk` and
`timedwaitOk` are successful returns of `uthread_sem_wait`,
`uthread_sem_trywait` and `uthread_sem_timedwait`; `trywaitFail` is
`uthread_sem_trywait` returning EAGAIN; `timedwaitTimeout` is
`uthread_sem_timedwait` returning ETIMEDOUT; `getvalue` is
`uthread_sem_getvalue`. -/
inductive SemOp where
  | post
  | waitOk
  | trywaitOk
  | timedwaitOk
  | trywaitFail
  | timedwaitTimeout
  | getvalue
deriving DecidableEq, Repr

/-- Whether the operation is a successful post. -/
def SemOp.isPost : SemOp → Bool
  | .post => true
  | _ => false

/-- Whether the operation is a successful wait of any flavour. -/
def SemOp.isWaitOk : SemOp → Bool
  | .waitOk => true
  | .trywaitOk => true
  | .timedwaitOk => true
  | _ => false

/-- Effect of each completed operation on `sem->value`, read off the
source: `post` executes `sem->value++` (src/semaphore.c:205); each
successful wait executes `sem->value--` after observing a positive
value (src/semaphore.c:103, 123, 185); the failing and read-only
operations leave the value unchanged. -/
def applySemOp (v : Int) : SemOp → Int
  | .post => v + 1
  | .waitOk => v - 1
  | .trywaitOk => v - 1
  | .timedwaitOk => v - 1
  | .trywaitFail => v
  | .timedwaitTimeout => v
  | .getvalue => v

/-- Enabling condition of each completed operation: a wait returns
success only after its loop (or `if`) observed `value > 0` under
disabled preemption, and `trywait` fails only when it observed
`value <= 0`. -/
def legalSemOp (v : Int) : SemOp → Prop
  | .post => True
  | .waitOk => 0 < v
  | .trywaitOk => 0 < v
  | .timedwaitOk => 0 < v
  | .trywaitFail => v ≤ 0
  | .timedwaitTimeout => True
  | .getvalue => True

/-- Value after a sequence of completed operations. -/
def applySemTrace (v : Int) : List SemOp → Int
  | [] => v
  | op :: tr => applySemTrace (applySemOp v op) tr

/-- All operations of the trace were enabled when they ran. -/
def legalSemTrace : Int → List SemOp → Prop
  | _, [] => True
  | v, op :: tr => legalSemOp v op ∧ legalSemTrace (applySemOp v op) tr

/-- Number of successful posts in a trace. -/
def countPosts (tr : List SemOp) : Nat := tr.countP (fun op => op.isPost)

/-- Number of successful waits (wait, trywait or timedwait) in a trace. -/
def countWaits (tr : List SemOp) : Nat := tr.countP (fun op => op.isWaitOk)

/-! ## Join / exit lifecycle (src/uthread.c, src/context.c) -/

/-- An opaque `void *` value (thread argument or return value). -/
abbrev Val := Int

/-- Thread states, from `uthread_state_t`. -/
inductive TState where
  | ready
  | running
  | blocked
  | terminated
deriving DecidableEq, Repr

/-- The TCB fields the join/exit protocol reads and writes:
`retval`, `exited`, `joiner`, `waiting_on` and `state`
(src/internal.h:55-110).  `retval` starts at 0 (`thread_alloc`
zero-initializes the TCB). -/
structure JTcb where
  retval : Val
  exited : Bool
  joiner : Option Tid
  waiting_on : Option Tid
  state : TState
deriving DecidableEq, Repr

/-- The registry of TCBs, indexed by thread id. -/
def JSys := Tid → JTcb

/-- All threads fresh, as `thread_alloc`'s `calloc` leaves them. -/
def initJSys : JSys := fun _ =>
  { retval := 0, exited := false, joiner := none, waiting_on := none,
    state := TState.ready }

/-- The atomic system transitions that touch the join/exit fields.
Both run with preemption disabled, so each is one step of the
interleaving.  `exitOp t v` is `uthread_exit(v)` executed by thread
`t` (src/uthread.c:334-386): it is the only writer of `retval` and
`exited` in the whole code base.  `joinBlock j t` is one pass of
`uthread_join`'s wait-loop body executed by `j` joining `t`
(src/uthread.c:259-268). -/
inductive JOp where
  | exitOp (t : Tid) (v : Val)
  | joinBlock (j t : Tid)
deriving DecidableEq, Repr

/-- Effect of one transition, following the source: `uthread_exit`
stores the return value, marks the thread exited and TERMINATED, and
readies its joiner (clearing the joiner's `waiting_on`); the join
loop body records the joiner and blocks it. -/
def applyJOp (s : JSys) : JOp → JSys
  | .exitOp t v =>
    let s1 := Function.update s t
      { s t with retval := v, exited := true, state := TState.terminated }
    match (s t).joiner with
    | some j =>
        Function.update s1 j
          { s1 j with waiting_on := none, state := TState.ready }
    | none => s1
  | .joinBlock j t =>
    let s1 := Function.update s t { s t with joiner := some j }
    Function.update s1 j
      { s1 j with waiting_on := some t, state := TState.blocked }

/-- Enabledness: a thread reaching `uthread_exit` is still running, so
it has not exited before (after `exit` it is TERMINATED and never
scheduled again); `uthread_join` rejects joining oneself (EDEADLK)
and only enters its wait loop while the target has not exited. -/
def legalJOp (s : JSys) : JOp → Prop
  | .exitOp t _ => (s t).exited = false
  | .joinBlock j t => j ≠ t ∧ (s t).exited = false

/-- State after a sequence of transitions. -/
def applyJTrace (s : JSys) : List JOp → JSys
  | [] => s
  | op :: tr => applyJTrace (applyJOp s op) tr

/-- Every transition of the trace was enabled when it ran. -/
def legalJTrace : JSys → List JOp → Prop
  | _, [] => True
  | s, op :: tr => legalJOp s op ∧ legalJTrace (applyJOp s op) tr

/-- The arguments of the `uthread_exit` calls thread `t` performed in
the trace, in order. -/
def exitsOf (tr : List JOp) (t : Tid) : List Val :=
  tr.filterMap (fun op =>
    match op with
    | .exitOp t' v => if t' = t then some v else none
    | .joinBlock _ _ => none)

/-- The completion step of `uthread_join` (src/uthread.c:259-272): the
wait loop exits only once `t->exited` holds, and then `*retval`
receives `t->retval`.  Returns `none` while `join` would still block. -/
def uthread_join_finish (s : JSys) (t : Tid) : Option Val :=
  if (s t).exited then some ((s t).retval) else none

/-- The trampoline `context_entry_wrapper` (src/context.c:21-39):
calls the thread's start routine on its argument and routes the
returned value into `uthread_exit`. -/
def context_entry_wrapper (t : Tid) (start : Val → Val) (arg : Val) : JOp :=
  JOp.exitOp t (start arg)

/-! ## Condition variable and timed waits (src/condvar.c, src/semaphore.c)

The blocking loops suspend the calling thread at `scheduler_schedule()`;
while it is suspended, other threads run and mutate the primitive.  The
embedding threads that interference through oracle functions (`intf`,
`cvintf`): at the i-th suspension the oracle maps the state the caller
left behind to the state it observes on resumption.  A resumption
discipline appears as a hypothesis where a claim relies on it: the
scheduler resumes a BLOCKED thread only through `wait_queue_wake_one`
(src/scheduler.c:111-119), which removes it from the wait queue before
`scheduler_unblock` makes it runnable, so a resumed thread is no longer
linked into the queue it blocked on. -/

/-- The mutex release inside `uthread_cond_wait` /
`uthread_cond_timedwait` (src/condvar.c:124-131, 201-207): clear the
lock and owner and wake one thread waiting on the mutex. -/
def condvar_release_mutex (m : Mutex) : Mutex :=
  { m with lock := 0, owner := none, waiters := wake_one m.waiters }

/-- The mutex reacquisition loop shared by `uthread_cond_wait`
(src/condvar.c:144-157) and `uthread_cond_timedwait`
(src/condvar.c:240-251): while the mutex is locked, append self to
`mutex->waiters`, block, and retest on resumption; once the lock reads
0, take it (`lock = 1`, `owner = self`, `recursion_count = 1`).  `i`
numbers the suspensions, `fuel` bounds the iterations the embedding
unrolls; `none` means the loop was still blocking. -/
def mutex_reacquire (self : Tid) (intf : Nat → Mutex → Mutex) :
    Nat → Mutex → Nat → Option Mutex
  | _, _, 0 => none
  | i, m, fuel + 1 =>
    if m.lock ≠ 0 then
      mutex_reacquire self intf (i + 1)
        (intf i { m with waiters := m.waiters ++ [self] }) fuel
    else
      some { m with lock := 1, owner := some self, recursion_count := 1 }

/-- Shallow embedding of `uthread_cond_wait` (src/condvar.c:93-163)
for an initialized condition variable and a live calling thread:
append self to `cond->waiters`, release the mutex and wake one mutex
waiter, block until signalled, then reacquire the mutex and return
success.  `intf 0` carries the interference while self is blocked on
the condition variable; `intf 1, 2, ...` the interference at each
reacquisition retry. -/
def uthread_cond_wait (self : Tid) (m : Mutex) (intf : Nat → Mutex → Mutex)
    (fuel : Nat) : Option (Int × Mutex) :=
  (mutex_reacquire self intf 1 (intf 0 (condvar_release_mutex m)) fuel).map
    (fun mf => (UTHREAD_SUCCESS, mf))

/-- The deadline-polling wait loop of `uthread_cond_timedwait`
(src/condvar.c:217-233), tracking the contents of `cond->waiters`:
while self is still linked into the queue (`self->blocked_queue !=
NULL`), compare the clock (`tm i`) against the deadline — on expiry
remove self (`wait_queue_remove_specific`) and report a timeout —
otherwise block and retest with the queue the environment left
(`cvintf i`).  Returns the timeout flag and the queue at loop exit. -/
def cond_timedwait_loop (self : Tid) (deadline : Nat) (tm : Nat → Nat)
    (cvintf : Nat → List Tid → List Tid) :
    Nat → List Tid → Nat → Option (Bool × List Tid)
  | _, _, 0 => none
  | i, q, fuel + 1 =>
    if self ∈ q then
      if deadline ≤ tm i then
        some (true, q.erase self)
      else
        cond_timedwait_loop self deadline tm cvintf (i + 1) (cvintf i q) fuel
    else
      some (false, q)

/-- Shallow embedding of `uthread_cond_timedwait`
(src/condvar.c:165-257) for an initialized condition variable and a
live calling thread: append self to `cond->waiters` (`cv` is the queue
at entry), release the mutex, run the deadline-polling wait loop, then
reacquire the mutex; the result is ETIMEDOUT iff the wait loop timed
out.  The returned queue is `cond->waiters` as the wait loop left it —
the code after the loop touches only the mutex. -/
def uthread_cond_timedwait (self : Tid) (cv : List Tid) (m : Mutex)
    (deadline : Nat) (tm : Nat → Nat)
    (cvintf : Nat → List Tid → List Tid) (intf : Nat → Mutex → Mutex)
    (fuelW fuelR : Nat) : Option (Int × List Tid × Mutex) :=
  match cond_timedwait_loop self deadline tm cvintf 0 (cv ++ [self]) fuelW with
  | none => none
  | some (timedOut, qf) =>
    (mutex_reacquire self intf 1 (intf 0 (condvar_release_mutex m)) fuelR).map
      (fun mf =>
        ((if timedOut then UTHREAD_ETIMEDOUT else UTHREAD_SUCCESS), qf, mf))

/-- The semaphore state self observes when rescheduled after blocking
at iteration `i`: self was appended to `sem->waiters`
(`wait_queue_add`, src/semaphore.c:159-162), then the environment ran. -/
def sem_timedwait_resume (self : Tid) (intf : Nat → Sem → Sem) (i : Nat)
    (s : Sem) : Sem :=
  intf i { s with waiters := s.waiters ++ [self] }

/-- The removal `uthread_sem_timedwait` performs when the second
deadline check fires (src/semaphore.c:173-181): if self is still
linked (`self->blocked_queue != NULL`), unlink it
(`wait_queue_remove_specific`). -/
def sem_timeout_unlink (self : Tid) (s : Sem) : Sem :=
  if self ∈ s.waiters then { s with waiters := s.waiters.erase self } else s

/-- The wait loop of `uthread_sem_timedwait` (src/semaphore.c:151-182):
while the value is non-positive, check the deadline at the loop head
(clock `tmA i`; a timeout here returns with no queue manipulation),
append self to `sem->waiters`, block, and on resumption check the
deadline again (clock `tmB i`; a timeout here unlinks self if it is
still queued).  Once a positive value is observed, decrement it and
return success. -/
def sem_timedwait_loop (self : Tid) (deadline : Nat) (tmA tmB : Nat → Nat)
    (intf : Nat → Sem → Sem) : Nat → Sem → Nat → Option (Int × Sem)
  | _, _, 0 => none
  | i, s, fuel + 1 =>
    if s.value ≤ 0 then
      if deadline ≤ tmA i then
        some (UTHREAD_ETIMEDOUT, s)
      else if deadline ≤ tmB i then
        some (UTHREAD_ETIMEDOUT,
          sem_timeout_unlink self (sem_timedwait_resume self intf i s))
      else
        sem_timedwait_loop self deadline tmA tmB intf (i + 1)
          (sem_timedwait_resume self intf i s) fuel
    else
      some (UTHREAD_SUCCESS, { s with value := s.value - 1 })

/-- Shallow embedding of `uthread_sem_timedwait`
(src/semaphore.c:132-190): EINVAL on an uninitialized semaphore,
otherwise the deadline-polling wait loop. -/
def uthread_sem_timedwait (self : Tid) (s : Sem) (deadline : Nat)
    (tmA tmB : Nat → Nat) (intf : Nat → Sem → Sem) (fuel : Nat) :
    Option (Int × Sem) :=
  if !s.initialized then some (UTHREAD_EINVAL, s)
  else sem_timedwait_loop self deadline tmA tmB intf 0 s fuel

/-! ## Multi-level priority run queue (src/sched_priority.c) -/

/-- UTHREAD_PRIORITY_LEVELS (include/uthread.h:43). -/
def UTHREAD_PRIORITY_LEVELS : Nat := 32

/-- The 32-bit all-ones mask, the value of `~0U`. -/
def U32mask : Nat := 2 ^ 32 - 1

/-- `struct sched_priority_state` (src/internal.h:212-216): 32 FIFO
queues (`queues i` is meaningful for `i < 32`; the C array has exactly
32 slots), a 32-bit non-empty bitmap, and a thread count.  Queue lists
are head-first; the doubly linked C queue appends at the tail. -/
structure PrioState where
  queues : Nat → List Tid
  bitmap : Nat
  count : Int

/-- The state after `priority_init` (src/sched_priority.c:107-111). -/
def prioInit : PrioState := { queues := fun _ => [], bitmap := 0, count := 0 }

/-- The scan of `find_highest_priority`'s loop
(src/sched_priority.c:37-41): test bits from `i` down to 0 and return
the first (highest) set index. -/
def find_highest_scan (bm : Nat) : Nat → Option Nat
  | 0 => if bm.testBit 0 then some 0 else none
  | i + 1 => if bm.testBit (i + 1) then some (i + 1) else find_highest_scan bm i

/-- Shallow embedding of `find_highest_priority`
(src/sched_priority.c:29-44): `none` stands for the C function's -1. -/
def find_highest_priority (bm : Nat) : Option Nat :=
  if bm = 0 then none else find_highest_scan bm 31

/-- The clamp `uthread_create`'s enqueue path applies
(src/sched_priority.c:122-124). -/
def clampPrio (p : Int) : Nat :=
  if p < 0 then 0 else if 31 < p then 31 else p.toNat

/-- Shallow embedding of `add_to_priority_queue`
(src/sched_priority.c:52-72): append `t` at the tail of queue `p`,
setting the bitmap bit when the queue was empty. -/
def add_to_priority_queue (st : PrioState) (t : Tid) (p : Nat) : PrioState :=
  if st.queues p = [] then
    { st with queues := Function.update st.queues p [t],
              bitmap := st.bitmap ||| (1 <<< p) }
  else
    { st with queues := Function.update st.queues p (st.queues p ++ [t]) }

/-- Shallow embedding of `remove_from_priority_queue`
(src/sched_priority.c:80-101): unlink `t` from queue `p` (the callers
guarantee `t` is linked there), clearing the bitmap bit if the queue
emptied.  `~(1U << p)` is `U32mask ^^^ (1 <<< p)`. -/
def remove_from_priority_queue (st : PrioState) (t : Tid) (p : Nat) : PrioState :=
  { st with
      queues := Function.update st.queues p ((st.queues p).erase t),
      bitmap :=
        if (st.queues p).erase t = [] then
          st.bitmap &&& (U32mask ^^^ (1 <<< p))
        else st.bitmap }

/-- Shallow embedding of `priority_enqueue`
(src/sched_priority.c:118-131): clamp the thread's priority, append,
bump the count (the timeslice reset does not touch the queue state). -/
def priority_enqueue (st : PrioState) (t : Tid) (p : Int) : PrioState :=
  { add_to_priority_queue st t (clampPrio p) with count := st.count + 1 }

/-- Shallow embedding of `priority_dequeue`
(src/sched_priority.c:133-148): take the head of the highest-index
non-empty queue; `none` when the bitmap shows every queue empty. -/
def priority_dequeue (st : PrioState) : Option Tid × PrioState :=
  match find_highest_priority st.bitmap with
  | none => (none, st)
  | some h =>
    match st.queues h with
    | [] => (none, st)
    | t :: _ =>
      (some t,
        { remove_from_priority_queue st t h with count := st.count - 1 })

/-- Shallow embedding of `priority_remove`
(src/sched_priority.c:150-181): search the thread's clamped bucket
first, then every bucket, and unlink it where found. -/
def priority_remove (st : PrioState) (t : Tid) (p : Int) : PrioState :=
  if t ∈ st.queues (clampPrio p) then
    { remove_from_priority_queue st t (clampPrio p) with count := st.count - 1 }
  else
    match (List.range UTHREAD_PRIORITY_LEVELS).find? (fun i => decide (t ∈ st.queues i)) with
    | some i => { remove_from_priority_queue st t i with count := st.count - 1 }
    | none => st

/-- The queue states reachable from `priority_init` through the
enqueue / dequeue / remove operations.  `enqueue` carries the
wait-queue discipline of the runtime (src/scheduler.c, spec
"at any time a TCB belongs to at most one queue"): a thread is
enqueued only while it is in no run queue. -/
inductive PrioReach : PrioState → Prop where
  | init : PrioReach prioInit
  | enqueue (st : PrioState) (t : Tid) (p : Int) : PrioReach st →
      (∀ i, t ∉ st.queues i) → PrioReach (priority_enqueue st t p)
  | dequeue (st : PrioState) : PrioReach st → PrioReach (priority_dequeue st).2
  | removeOp (st : PrioState) (t : Tid) (p : Int) : PrioReach st →
      PrioReach (priority_remove st t p)

/-- The bitmap/queues consistency invariant: bit `i` is set exactly
when queue `i` is non-empty, the bitmap fits 32 bits, and the slots
beyond the 32-entry array are unused. -/
def PrioInv (st : PrioState) : Prop :=
  st.bitmap < 2 ^ 32 ∧
  (∀ i, i < 32 → (st.bitmap.testBit i ↔ st.queues i ≠ [])) ∧
  (∀ i, 32 ≤ i → st.queues i = [])

/-- Queue disjointness: no thread is linked twice (within a queue or
across two queues). -/
def PrioDisj (st : PrioState) : Prop :=
  (∀ i, (st.queues i).Nodup) ∧
  (∀ i j, i ≠ j → ∀ t, t ∈ st.queues i → t ∉ st.queues j)

/-- A concrete priority-queue state: thread 10 enqueued at priority 5
on the empty run queue. -/
def stEx : PrioState := priority_enqueue prioInit 10 5

/-- A concrete mutex held by thread 1, used as a witness input. -/
def mheldEx : Mutex :=
  { lock := 1, owner := some 1, waiters := [], type := MutexType.normal,
    recursion_count := 1, initialized := true }

/-! ## Theorems -/

theorem lock_rec_owner (a : Tid) (k : Int) (w : List Tid) :
    uthread_mutex_lock (recMutexHeld a k w) (some a) =
      some (UTHREAD_SUCCESS, recMutexHeld a (k + 1) w) := by
  simp [uthread_mutex_lock, mutexLazyInit, recMutexHeld]

theorem lock_rec_fresh (a : Tid) :
    uthread_mutex_lock recMutexInit (some a) =
      some (UTHREAD_SUCCESS, recMutexHeld a 1 []) := by
  simp [uthread_mutex_lock, mutexLazyInit, recMutexInit, recMutexHeld]

theorem unlock_rec_owner_inner (a : Tid) (k : Int) (w : List Tid) (hk : 1 < k) :
    uthread_mutex_unlock (recMutexHeld a k w) (some a) =
      (UTHREAD_SUCCESS, recMutexHeld a (k - 1) w) := by
  simp only [uthread_mutex_unlock, recMutexHeld]
  norm_num
  exact hk

theorem unlock_rec_owner_last (a : Tid) (w : List Tid) :
    uthread_mutex_unlock (recMutexHeld a 1 w) (some a) =
      (UTHREAD_SUCCESS, releasedRecMutex w) := by
  simp [uthread_mutex_unlock, recMutexHeld, releasedRecMutex]

theorem unlock_rec_nonowner (a b : Tid) (k : Int) (w : List Tid) (hab : a ≠ b) :
    uthread_mutex_unlock (recMutexHeld a k w) (some b) =
      (UTHREAD_SUCCESS, releasedRecMutex w) := by
  simp [uthread_mutex_unlock, recMutexHeld, releasedRecMutex, hab]

theorem lockIter_held (a : Tid) (n : Nat) (k : Int) (w : List Tid) :
    lockIter a n (recMutexHeld a k w) = some (recMutexHeld a (k + n) w) := by
  induction n generalizing k with
  | zero => simp [lockIter]
  | succ n ih =>
      rw [lockIter, lock_rec_owner]
      show lockIter a n (recMutexHeld a (k + 1) w) = _
      rw [ih]
      congr 2
      push_cast
      ring

theorem unlockIter_held (a : Tid) (j : Nat) (K : Int) (w : List Tid)
    (hj : (j : Int) < K) :
    unlockIter a j (recMutexHeld a K w) = recMutexHeld a (K - j) w := by
  induction j generalizing K with
  | zero => simp [unlockIter]
  | succ j ih =>
      rw [unlockIter, unlock_rec_owner_inner a K w (by push_cast at hj; omega)]
      rw [ih (K - 1) (by push_cast at hj ⊢; omega)]
      congr 1
      push_cast
      ring

theorem unlockIter_release (a : Tid) (K : Nat) (w : List Tid) :
    unlockIter a (K + 1) (recMutexHeld a (K + 1) w) = releasedRecMutex w := by
  induction K with
  | zero =>
      rw [unlockIter]
      norm_num [unlock_rec_owner_last]
      rfl
  | succ n ih =>
      rw [unlockIter, unlock_rec_owner_inner a _ w (by push_cast; omega)]
      show unlockIter a (n + 1)
        (recMutexHeld a ((((n + 1 : Nat) : Int)) + 1 - 1) w) = releasedRecMutex w
      rw [show ((((n + 1 : Nat) : Int)) + 1 - 1) = ((n : Int) + 1) by push_cast; ring]
      exact ih

/-- C1, counterexample.  Claim: a RECURSIVE mutex locked by thread A
is not released by an `uthread_mutex_unlock` from a thread B ≠ A
(owner, lock flag and recursion count stay as A's).  In the code only
ERRORCHECK mutexes verify ownership: with the mutex held by thread 1
at recursion count 2, a single unlock by thread 2 returns success and
fully releases it (owner cleared, lock cleared, count zeroed). -/
theorem mutex_recursive_nonowner_unlock_counterexample :
    (uthread_mutex_unlock (recMutexHeld 1 2 []) (some 2)).1 = UTHREAD_SUCCESS ∧
    (uthread_mutex_unlock (recMutexHeld 1 2 []) (some 2)).2.owner = none ∧
    (uthread_mutex_unlock (recMutexHeld 1 2 []) (some 2)).2.lock = 0 ∧
    (uthread_mutex_unlock (recMutexHeld 1 2 []) (some 2)).2.recursion_count = 0 := by
  decide

/-- C1, amended.  For a RECURSIVE mutex: (1) `K` nested
`uthread_mutex_lock` calls by thread `a` on a fresh mutex leave it
held by `a` with recursion count `K`; (2) as long as only `a` unlocks,
`j < K` unlocks leave it held by `a` with count `K - j`, and the K-th
unlock releases it — so the owner must unlock as many times as it
locked; but (3) a single `uthread_mutex_unlock` by any thread `b ≠ a`
also returns success and immediately releases the mutex, because only
ERRORCHECK mutexes verify ownership on unlock. -/
theorem mutex_recursive_unlock_amended (a b : Tid) (K j : Nat) (k : Int)
    (w : List Tid) (hK : 1 ≤ K) (hj : j < K) (hk : 1 ≤ k) (hab : a ≠ b) :
    lockIter a K recMutexInit = some (recMutexHeld a K []) ∧
    unlockIter a j (recMutexHeld a K w) = recMutexHeld a ((K : Int) - j) w ∧
    unlockIter a K (recMutexHeld a K w) = releasedRecMutex w ∧
    uthread_mutex_unlock (recMutexHeld a k w) (some b) =
      (UTHREAD_SUCCESS, releasedRecMutex w) := by
  refine ⟨?_, ?_, ?_, unlock_rec_nonowner a b k w hab⟩
  · obtain ⟨K', rfl⟩ : ∃ K', K = K' + 1 := ⟨K - 1, by omega⟩
    rw [lockIter, lock_rec_fresh]
    show lockIter a K' (recMutexHeld a 1 []) = _
    rw [lockIter_held]
    congr 2
    push_cast
    ring
  · rw [unlockIter_held a j K w (by exact_mod_cast hj)]
  · obtain ⟨K', rfl⟩ : ∃ K', K = K' + 1 := ⟨K - 1, by omega⟩
    exact unlockIter_release a K' w

/-- C1, witness for the amended theorem: two locks by thread 1, one
inner unlock, release on the second unlock, and a releasing unlock by
thread 2. -/
theorem mutex_recursive_unlock_amended_witness :
    lockIter 1 2 recMutexInit = some (recMutexHeld 1 2 []) ∧
    unlockIter 1 1 (recMutexHeld 1 2 []) = recMutexHeld 1 1 [] ∧
    unlockIter 1 2 (recMutexHeld 1 2 []) = releasedRecMutex [] ∧
    uthread_mutex_unlock (recMutexHeld 1 1 []) (some 2) =
      (UTHREAD_SUCCESS, releasedRecMutex []) := by
  have h := mutex_recursive_unlock_amended 1 2 2 1 1 []
    (by norm_num) (by norm_num) (by norm_num) (by norm_num)
  norm_num at h
  exact h

/-- C10.  On an ERRORCHECK mutex owned by the calling thread,
`uthread_mutex_trylock` returns EBUSY (not the EDEADLK that
`uthread_mutex_lock` returns in the same situation) and leaves the
mutex — owner, lock flag, recursion count, every field — unchanged. -/
theorem mutex_trylock_errorcheck_owner (m : Mutex) (a : Tid)
    (hinit : m.initialized = true) (htype : m.type = MutexType.errorcheck)
    (hown : m.owner = some a) :
    uthread_mutex_trylock m (some a) = (UTHREAD_EBUSY, m) ∧
    uthread_mutex_lock m (some a) = some (UTHREAD_EDEADLK, m) := by
  constructor
  · simp [uthread_mutex_trylock, mutexLazyInit, hinit, htype, hown]
  · simp [uthread_mutex_lock, mutexLazyInit, hinit, htype, hown]

/-- C10, witness: a concrete ERRORCHECK mutex held by thread 1. -/
theorem mutex_trylock_errorcheck_owner_witness :
    uthread_mutex_trylock
        { lock := 1, owner := some 1, waiters := [], type := MutexType.errorcheck,
          recursion_count := 1, initialized := true } (some 1) =
      (UTHREAD_EBUSY,
        { lock := 1, owner := some 1, waiters := [], type := MutexType.errorcheck,
          recursion_count := 1, initialized := true }) :=
  (mutex_trylock_errorcheck_owner _ 1 rfl rfl rfl).1

/-- C3, counterexample.  Claim: `cfs_should_preempt` returns false
whenever the leftmost vruntime is greater than or equal to the current
thread's.  With current vruntime 0, timeslice remaining 5 and leftmost
vruntime 2, the `uint64_t` difference `0 - 2` wraps to `2^64 - 2`,
which exceeds CFS_MIN_GRANULARITY_NS, so the code preempts where the
claim requires false. -/
theorem cfs_should_preempt_counterexample :
    cfs_should_preempt (some ⟨0, 5⟩) 1 (some 2) = true ∧
    cfs_should_preempt_claim ⟨0, 5⟩ 1 (some 2) = false := by
  constructor
  · decide
  · decide

/-- C3, amended.  `cfs_should_preempt` returns true iff either the
timeslice is exhausted and the tree count is positive, or the
timeslice is not exhausted, a leftmost node exists, and the wrapped
64-bit difference `current.vruntime - leftmost.vruntime` exceeds
CFS_MIN_GRANULARITY_NS.  Because the difference is computed in
`uint64_t`, a leftmost whose vruntime exceeds the current thread's
(by less than `2^64` minus the granularity) also triggers preemption,
rather than the claim's "returns false". -/
theorem cfs_should_preempt_amended (c : CfsThread) (count : Int)
    (leftmost : Option Nat) :
    cfs_should_preempt (some c) count leftmost = true ↔
      ((c.timeslice_remaining = 0 ∧ 0 < count) ∨
       (c.timeslice_remaining ≠ 0 ∧ ∃ lv, leftmost = some lv ∧
          CFS_MIN_GRANULARITY_NS < sub64 c.vruntime lv)) := by
  cases leftmost <;>
    simp [cfs_should_preempt] <;>
    split_ifs <;>
    simp_all

/-- C9, counterexample.  Claim: with any attribute structure, a
created thread's stack size is at most 8 MiB.  An attribute whose
`stack_size` field is 16 MiB (legal to build, since `uthread_attr_t`
is a plain struct) passes `uthread_create`'s only check
(`>= UTHREAD_STACK_MIN`) and produces a 16 MiB stack. -/
theorem uthread_create_stack_size_counterexample :
    uthread_create_stack_size (some ⟨16 * 1024 * 1024, 16, 0⟩) = 16 * 1024 * 1024 ∧
    ¬ (16 * 1024 * 1024 ≤ UTHREAD_STACK_MAX) := by
  constructor
  · decide
  · decide

/-- C9, amended.  A successful `uthread_create` gives the new thread a
stack of at least UTHREAD_STACK_MIN bytes; the size is the 64 KiB
default when no attribute is supplied (or when the attribute's size is
below the minimum) and the attribute's size whenever that is at least
the minimum — the 8 MiB upper bound is not enforced by
`uthread_create` itself, but does hold for any attribute whose size
was installed by a successful `uthread_attr_setstacksize`, which
validates the full range. -/
theorem uthread_create_stack_size_amended :
    uthread_create_stack_size none = UTHREAD_STACK_DEFAULT ∧
    (∀ a : UthreadAttr, UTHREAD_STACK_MIN ≤ uthread_create_stack_size (some a)) ∧
    (∀ a : UthreadAttr, a.stack_size < UTHREAD_STACK_MIN →
        uthread_create_stack_size (some a) = UTHREAD_STACK_DEFAULT) ∧
    (∀ a : UthreadAttr, UTHREAD_STACK_MIN ≤ a.stack_size →
        uthread_create_stack_size (some a) = a.stack_size) ∧
    (∀ (a a' : UthreadAttr) (sz : Nat),
        uthread_attr_setstacksize a sz = (UTHREAD_SUCCESS, a') →
        UTHREAD_STACK_MIN ≤ uthread_create_stack_size (some a') ∧
        uthread_create_stack_size (some a') ≤ UTHREAD_STACK_MAX) := by
  refine ⟨rfl, ?_, ?_, ?_, ?_⟩
  · intro a
    simp only [uthread_create_stack_size]
    split_ifs with h
    · exact h
    · decide
  · intro a h
    simp only [uthread_create_stack_size]
    rw [if_neg (by omega)]
  · intro a h
    simp only [uthread_create_stack_size]
    rw [if_pos h]
  · intro a a' sz h
    unfold uthread_attr_setstacksize at h
    split_ifs at h with hr
    · have hfst : UTHREAD_EINVAL = UTHREAD_SUCCESS := congrArg Prod.fst h
      exact absurd hfst (by decide)
    · have ha' : a' = { a with stack_size := sz } := (congrArg Prod.snd h).symm
      subst ha'
      push_neg at hr
      simp only [uthread_create_stack_size]
      rw [if_pos hr.1]
      exact hr

/-- C9, witness for the amended theorem: the concrete attribute with a
20000-byte stack produced by `uthread_attr_setstacksize` yields a
20000-byte stack within both bounds. -/
theorem uthread_create_stack_size_amended_witness :
    UTHREAD_STACK_MIN ≤ uthread_create_stack_size
        (some { uthread_attr_init with stack_size := 20000 }) ∧
    uthread_create_stack_size
        (some { uthread_attr_init with stack_size := 20000 }) ≤ UTHREAD_STACK_MAX :=
  uthread_create_stack_size_amended.2.2.2.2 uthread_attr_init
    { uthread_attr_init with stack_size := 20000 } 20000 (by decide)

theorem applySemTrace_eq (v : Int) (tr : List SemOp) :
    applySemTrace v tr = v + countPosts tr - countWaits tr := by
  induction tr generalizing v with
  | nil => simp [applySemTrace, countPosts, countWaits]
  | cons op tr ih =>
      rw [applySemTrace, ih]
      cases op <;>
        simp [applySemOp, countPosts, countWaits, List.countP_cons,
          SemOp.isPost, SemOp.isWaitOk] <;>
        push_cast <;>
        ring

/-- C8, counterexample.  Claim: after zero posts and zero waits,
`uthread_sem_getvalue` stores the `v0` the semaphore was initialized
with.  `uthread_sem_init` stores `(int)value`, so initializing with
`v0 = 2^31` (a legal `unsigned int`) stores `-2^31`, not `2^31`. -/
theorem sem_accounting_counterexample :
    uthread_sem_init 0 (2 ^ 31) =
      (UTHREAD_SUCCESS, some { value := -(2 ^ 31), waiters := [], initialized := true }) ∧
    uthread_sem_getvalue { value := -(2 ^ 31), waiters := [], initialized := true } =
      (UTHREAD_SUCCESS, some (-(2 ^ 31))) ∧
    (-(2 ^ 31) : Int) ≠ ((2 ^ 31 : Nat) : Int) := by
  refine ⟨?_, ?_, by norm_num⟩
  · norm_num [uthread_sem_init, toInt32]
  · norm_num [uthread_sem_getvalue]

/-- C8, amended.  For a semaphore initialized to `v0`: each successful
post adds one, each successful wait/trywait/timedwait subtracts one,
and no other semaphore operation changes the value, so after any legal
sequence of completed operations the stored value — the one
`uthread_sem_getvalue` reports — is `(int)v0 + P - W`, where `(int)v0`
is `v0` reduced to 32-bit two's complement by the cast in
`uthread_sem_init`; for `v0 < 2^31` this is exactly `v0 + P - W`. -/
theorem sem_accounting_amended (v0 : Nat) (tr : List SemOp)
    (hlegal : legalSemTrace (toInt32 v0) tr) :
    applySemTrace (toInt32 v0) tr =
      toInt32 v0 + countPosts tr - countWaits tr ∧
    (v0 < 2 ^ 31 →
      applySemTrace (toInt32 v0) tr = (v0 : Int) + countPosts tr - countWaits tr) := by
  refine ⟨applySemTrace_eq _ tr, fun hv => ?_⟩
  rw [applySemTrace_eq _ tr]
  have : toInt32 v0 = (v0 : Int) := by
    unfold toInt32
    have h32 : v0 % 2 ^ 32 = v0 := Nat.mod_eq_of_lt (by omega)
    simp only [h32]
    rw [if_pos (by exact_mod_cast hv)]
  rw [this]

/-- C8, witness for the amended theorem: starting from value 5, one
post, one successful wait and one timed-out timedwait leave the value
at 5 + 1 - 1 = 5. -/
theorem sem_accounting_amended_witness :
    applySemTrace (toInt32 5) [SemOp.post, SemOp.waitOk, SemOp.timedwaitTimeout] =
      toInt32 5 + countPosts [SemOp.post, SemOp.waitOk, SemOp.timedwaitTimeout]
        - countWaits [SemOp.post, SemOp.waitOk, SemOp.timedwaitTimeout] :=
  (sem_accounting_amended 5 [SemOp.post, SemOp.waitOk, SemOp.timedwaitTimeout]
    (by constructor
        · trivial
        · exact ⟨by norm_num [toInt32, applySemOp, legalSemOp], by trivial⟩)).1

theorem applyJOp_retval_exited (s : JSys) (op : JOp) (t : Tid)
    (h : ∀ v, op ≠ JOp.exitOp t v) :
    ((applyJOp s op) t).retval = (s t).retval ∧
    ((applyJOp s op) t).exited = (s t).exited := by
  cases op with
  | exitOp t' v =>
      have ht' : t' ≠ t := fun he => h v (by rw [he])
      cases hj : (s t').joiner with
      | none => simp [applyJOp, hj, Function.update_apply, Ne.symm ht']
      | some j =>
          simp only [applyJOp, hj, Function.update_apply]
          split_ifs <;> simp_all
  | joinBlock j t'' =>
      simp only [applyJOp, Function.update_apply]
      split_ifs <;> simp_all

theorem exitsOf_cons_other (op : JOp) (tr : List JOp) (t : Tid)
    (h : ∀ v, op ≠ JOp.exitOp t v) :
    exitsOf (op :: tr) t = exitsOf tr t := by
  cases op with
  | exitOp t' v =>
      have ht' : t' ≠ t := fun he => h v (by rw [he])
      simp [exitsOf, ht']
  | joinBlock j t'' => simp [exitsOf]

theorem jsys_exited_stable (tr : List JOp) (s : JSys) (t : Tid)
    (hx : (s t).exited = true) (hleg : legalJTrace s tr) :
    exitsOf tr t = [] ∧
    (applyJTrace s tr t).exited = true ∧
    (applyJTrace s tr t).retval = (s t).retval := by
  induction tr generalizing s with
  | nil => simpa [exitsOf, applyJTrace]
  | cons op tr ih =>
      obtain ⟨hop, hleg'⟩ := hleg
      have hnx : ∀ v, op ≠ JOp.exitOp t v := by
        rintro v rfl
        rw [legalJOp] at hop
        rw [hop] at hx
        exact Bool.false_ne_true hx
      obtain ⟨hr, he⟩ := applyJOp_retval_exited s op t hnx
      obtain ⟨h1, h2, h3⟩ := ih (applyJOp s op) (he.trans hx) hleg'
      exact ⟨(exitsOf_cons_other op tr t hnx).trans h1, h2, h3.trans hr⟩

theorem applyJOp_exit_self (s : JSys) (t : Tid) (v : Val) :
    ((applyJOp s (JOp.exitOp t v)) t).retval = v ∧
    ((applyJOp s (JOp.exitOp t v)) t).exited = true := by
  cases hj : (s t).joiner with
  | none => simp [applyJOp, hj, Function.update_apply]
  | some j =>
      by_cases hjt : j = t
      · subst hjt
        simp [applyJOp, hj, Function.update_apply]
      · simp [applyJOp, hj, Function.update_apply, hjt, Ne.symm hjt]

theorem join_exit_inv (tr : List JOp) (s : JSys) (t : Tid)
    (hleg : legalJTrace s tr) (h : (s t).exited = false) :
    (exitsOf tr t = [] ∧ (applyJTrace s tr t).exited = false ∧
      (applyJTrace s tr t).retval = (s t).retval) ∨
    (∃ v, exitsOf tr t = [v] ∧ (applyJTrace s tr t).exited = true ∧
      (applyJTrace s tr t).retval = v) := by
  induction tr generalizing s with
  | nil => left; exact ⟨rfl, h, rfl⟩
  | cons op tr ih =>
      obtain ⟨hop, hleg'⟩ := hleg
      by_cases hx : ∃ v, op = JOp.exitOp t v
      · obtain ⟨v, rfl⟩ := hx
        obtain ⟨hrv, hex⟩ := applyJOp_exit_self s t v
        obtain ⟨h1, h2, h3⟩ := jsys_exited_stable tr _ t hex hleg'
        right
        refine ⟨v, ?_, h2, h3.trans hrv⟩
        simp [exitsOf] at h1 ⊢
        exact h1
      · push_neg at hx
        have hnx : ∀ v, op ≠ JOp.exitOp t v := hx
        obtain ⟨hr, he⟩ := applyJOp_retval_exited s op t hnx
        rcases ih (applyJOp s op) hleg' (he.trans h) with ⟨h1, h2, h3⟩ | ⟨v, h1, h2, h3⟩
        · left
          exact ⟨(exitsOf_cons_other op tr t hnx).trans h1, h2, h3.trans hr⟩
        · right
          exact ⟨v, (exitsOf_cons_other op tr t hnx).trans h1, h2, h3⟩

/-- C2.  If `uthread_join` on thread `t` completes successfully after
a legal sequence of join/exit transitions from the initial state, the
value it stores through `retval` is the argument of the unique
`uthread_exit` call `t` performed; and whenever that exit was issued
by the entry trampoline `context_entry_wrapper` for start routine `f`
and argument `a`, the stored value is `f a`, the value the start
routine returned. -/
theorem join_returns_exit_value (tr : List JOp) (t : Tid) (r : Val)
    (hleg : legalJTrace initJSys tr)
    (hjoin : uthread_join_finish (applyJTrace initJSys tr) t = some r) :
    exitsOf tr t = [r] ∧
    ∀ (f : Val → Val) (a : Val), context_entry_wrapper t f a ∈ tr → f a = r := by
  have h0 : (initJSys t).exited = false := rfl
  rcases join_exit_inv tr initJSys t hleg h0 with ⟨he, hx, hr⟩ | ⟨v, he, hx, hr⟩
  · unfold uthread_join_finish at hjoin
    rw [hx] at hjoin
    simp at hjoin
  · unfold uthread_join_finish at hjoin
    rw [hx] at hjoin
    simp only [if_true] at hjoin
    have hvr : v = r := by
      rw [hr] at hjoin
      exact Option.some_injective _ hjoin
    subst hvr
    refine ⟨he, fun f a hmem => ?_⟩
    have hfa : f a ∈ exitsOf tr t := by
      unfold context_entry_wrapper at hmem
      unfold exitsOf
      rw [List.mem_filterMap]
      exact ⟨JOp.exitOp t (f a), hmem, by simp⟩
    rw [he] at hfa
    simpa using hfa

/-- C2, witness: thread 1 blocks joining thread 2, thread 2 exits with
value 7, and the completed join reports exactly one exit with value 7. -/
theorem join_returns_exit_value_witness :
    exitsOf [JOp.joinBlock 1 2, JOp.exitOp 2 7] 2 = [7] :=
  (join_returns_exit_value [JOp.joinBlock 1 2, JOp.exitOp 2 7] 2 7
    (by refine ⟨⟨by norm_num, rfl⟩, ?_, trivial⟩
        show legalJOp _ _
        rw [legalJOp]
        rfl)
    rfl).1

theorem mutex_reacquire_locks (self : Tid) (intf : Nat → Mutex → Mutex) :
    ∀ (fuel i : Nat) (m mf : Mutex),
      mutex_reacquire self intf i m fuel = some mf →
      mf.lock = 1 ∧ mf.owner = some self := by
  intro fuel
  induction fuel with
  | zero => intro i m mf h; exact absurd h (by simp [mutex_reacquire])
  | succ fuel ih =>
      intro i m mf h
      rw [mutex_reacquire] at h
      split_ifs at h with hl
      · exact ih _ _ _ h
      · obtain rfl : _ = mf := Option.some_injective _ h
        exact ⟨rfl, rfl⟩

/-- C4.  Whenever `uthread_cond_wait` returns, and whenever
`uthread_cond_timedwait` returns — with success or with ETIMEDOUT —
the mutex is locked and owned by the calling thread, because both exit
through the reacquisition loop, which completes only by taking the
lock for self. -/
theorem cond_wait_reacquires_mutex (self : Tid) (m : Mutex)
    (hheld : m.owner = some self ∧ m.lock = 1)
    (intf : Nat → Mutex → Mutex) (fuel : Nat)
    (cv : List Tid) (deadline : Nat) (tm : Nat → Nat)
    (cvintf : Nat → List Tid → List Tid) (fuelW fuelR : Nat) :
    (∀ (res : Int) (mf : Mutex),
        uthread_cond_wait self m intf fuel = some (res, mf) →
        res = UTHREAD_SUCCESS ∧ mf.lock = 1 ∧ mf.owner = some self) ∧
    (∀ (res : Int) (qf : List Tid) (mf : Mutex),
        uthread_cond_timedwait self cv m deadline tm cvintf intf fuelW fuelR =
          some (res, qf, mf) →
        (res = UTHREAD_SUCCESS ∨ res = UTHREAD_ETIMEDOUT) ∧
        mf.lock = 1 ∧ mf.owner = some self) := by
  constructor
  · intro res mf h
    unfold uthread_cond_wait at h
    cases hre : mutex_reacquire self intf 1 (intf 0 (condvar_release_mutex m)) fuel with
    | none => rw [hre] at h; simp at h
    | some m' =>
        rw [hre] at h
        have hm' := mutex_reacquire_locks self intf fuel 1 _ m' hre
        simp [Prod.ext_iff] at h
        obtain ⟨hres, hmf⟩ := h
        subst hres
        subst hmf
        exact ⟨rfl, hm'⟩
  · intro res qf mf h
    unfold uthread_cond_timedwait at h
    cases hw : cond_timedwait_loop self deadline tm cvintf 0 (cv ++ [self]) fuelW with
    | none => rw [hw] at h; simp at h
    | some p =>
        obtain ⟨timedOut, qf'⟩ := p
        rw [hw] at h
        simp only at h
        cases hre : mutex_reacquire self intf 1 (intf 0 (condvar_release_mutex m)) fuelR with
        | none => rw [hre] at h; simp at h
        | some m' =>
            rw [hre] at h
            have hm' := mutex_reacquire_locks self intf fuelR 1 _ m' hre
            simp [Prod.ext_iff] at h
            obtain ⟨hres, hqf, hmf⟩ := h
            subst hres
            subst hmf
            refine ⟨?_, hm'⟩
            cases timedOut
            · left; rfl
            · right; rfl

/-- C4, witness: thread 1 holds `mheldEx`, waits, is woken with the
mutex free, and reacquires it; the timed variant times out immediately
and still comes back holding the mutex. -/
theorem cond_wait_reacquires_mutex_witness :
    (UTHREAD_SUCCESS = UTHREAD_SUCCESS ∧ mheldEx.lock = 1 ∧ mheldEx.owner = some 1) ∧
    ((UTHREAD_ETIMEDOUT = UTHREAD_SUCCESS ∨ UTHREAD_ETIMEDOUT = UTHREAD_ETIMEDOUT) ∧
      mheldEx.lock = 1 ∧ mheldEx.owner = some 1) :=
  ⟨(cond_wait_reacquires_mutex 1 mheldEx ⟨rfl, rfl⟩ (fun _ x => x) 1 [] 0 (fun _ => 0)
      (fun _ q => q) 1 1).1 UTHREAD_SUCCESS mheldEx rfl,
   (cond_wait_reacquires_mutex 1 mheldEx ⟨rfl, rfl⟩ (fun _ x => x) 1 [] 0 (fun _ => 0)
      (fun _ q => q) 1 1).2 UTHREAD_ETIMEDOUT [] mheldEx rfl⟩

theorem sem_timedwait_loop_not_queued (self : Tid) (deadline : Nat)
    (tmA tmB : Nat → Nat) (intf : Nat → Sem → Sem)
    (hintf : ∀ i r, self ∉ (intf i r).waiters) :
    ∀ (fuel i : Nat) (s : Sem), self ∉ s.waiters →
    ∀ (res : Int) (sf : Sem),
      sem_timedwait_loop self deadline tmA tmB intf i s fuel = some (res, sf) →
      self ∉ sf.waiters := by
  intro fuel
  induction fuel with
  | zero =>
      intro i s hs res sf h
      simp [sem_timedwait_loop] at h
  | succ fuel ih =>
      intro i s hs res sf h
      rw [sem_timedwait_loop] at h
      split_ifs at h with hv ha hb
      · obtain ⟨-, rfl⟩ : UTHREAD_ETIMEDOUT = res ∧ s = sf := by
          simpa [Prod.ext_iff] using h
        exact hs
      · obtain ⟨-, rfl⟩ :
            UTHREAD_ETIMEDOUT = res ∧
              sem_timeout_unlink self (sem_timedwait_resume self intf i s) = sf := by
          simpa [Prod.ext_iff] using h
        have hni : self ∉ (sem_timedwait_resume self intf i s).waiters := hintf i _
        simp [sem_timeout_unlink, hni]
      · exact ih (i + 1) _ (hintf i _) res sf h
      · obtain ⟨-, rfl⟩ : UTHREAD_SUCCESS = res ∧
            ({ s with value := s.value - 1 } : Sem) = sf := by
          simpa [Prod.ext_iff] using h
        exact hs

theorem cond_timedwait_loop_not_queued (self : Tid) (deadline : Nat)
    (tm : Nat → Nat) (cvintf : Nat → List Tid → List Tid)
    (hcv : ∀ i q, self ∉ cvintf i q) :
    ∀ (fuel i : Nat) (q : List Tid), List.count self q ≤ 1 →
    ∀ (b : Bool) (qf : List Tid),
      cond_timedwait_loop self deadline tm cvintf i q fuel = some (b, qf) →
      self ∉ qf := by
  intro fuel
  induction fuel with
  | zero =>
      intro i q hq b qf h
      simp [cond_timedwait_loop] at h
  | succ fuel ih =>
      intro i q hq b qf h
      rw [cond_timedwait_loop] at h
      split_ifs at h with hmem ht
      · obtain ⟨-, rfl⟩ : b = true ∧ q.erase self = qf := by
          simpa [Prod.ext_iff] using h
        have hcount : List.count self q = 1 := by
          have := List.count_pos_iff.mpr hmem
          omega
        have : List.count self (q.erase self) = 0 := by
          rw [List.count_erase_self, hcount]
        exact List.count_eq_zero.mp this
      · exact ih (i + 1) _ (by
          have := hcv i q
          simp [List.count_eq_zero.mpr this]) b qf h
      · obtain ⟨-, rfl⟩ : b = false ∧ q = qf := by
          simpa [Prod.ext_iff] using h
        exact hmem

/-- C5.  A return value of ETIMEDOUT from `uthread_sem_timedwait` or
`uthread_cond_timedwait` implies the calling thread is no longer
linked into the primitive's wait queue at the point of return: every
timeout path either never enqueued self for its final loop pass or
explicitly unlinks it, and (the resumption-discipline hypotheses
`hintf`/`hcvintf`) a thread resumed from `scheduler_schedule` was
already removed from the queue by `wait_queue_wake_one` before being
made runnable. -/
theorem timedwait_timeout_not_queued (self : Tid) (s : Sem) (deadline : Nat)
    (tmA tmB : Nat → Nat) (intf : Nat → Sem → Sem) (fuel : Nat)
    (hs0 : self ∉ s.waiters)
    (hintf : ∀ i r, self ∉ (intf i r).waiters)
    (cv : List Tid) (m : Mutex) (tm : Nat → Nat)
    (cvintf : Nat → List Tid → List Tid) (mintf : Nat → Mutex → Mutex)
    (fuelW fuelR : Nat)
    (hcv0 : self ∉ cv)
    (hcvintf : ∀ i q, self ∉ cvintf i q) :
    (∀ (res : Int) (sf : Sem),
        uthread_sem_timedwait self s deadline tmA tmB intf fuel = some (res, sf) →
        res = UTHREAD_ETIMEDOUT → self ∉ sf.waiters) ∧
    (∀ (res : Int) (qf : List Tid) (mf : Mutex),
        uthread_cond_timedwait self cv m deadline tm cvintf mintf fuelW fuelR =
          some (res, qf, mf) →
        res = UTHREAD_ETIMEDOUT → self ∉ qf) := by
  constructor
  · intro res sf h _
    unfold uthread_sem_timedwait at h
    split_ifs at h with hinit
    · obtain ⟨-, rfl⟩ : UTHREAD_EINVAL = res ∧ s = sf := by
        simpa [Prod.ext_iff] using h
      exact hs0
    · exact sem_timedwait_loop_not_queued self deadline tmA tmB intf hintf
        fuel 0 s hs0 res sf h
  · intro res qf mf h _
    unfold uthread_cond_timedwait at h
    cases hw : cond_timedwait_loop self deadline tm cvintf 0 (cv ++ [self]) fuelW with
    | none => rw [hw] at h; simp at h
    | some p =>
        obtain ⟨timedOut, qf'⟩ := p
        rw [hw] at h
        simp only at h
        cases hre : mutex_reacquire self mintf 1
            (mintf 0 (condvar_release_mutex m)) fuelR with
        | none => rw [hre] at h; simp at h
        | some m' =>
            rw [hre] at h
            simp [Prod.ext_iff] at h
            obtain ⟨-, hqf, -⟩ := h
            subst hqf
            exact cond_timedwait_loop_not_queued self deadline tm cvintf hcvintf
              fuelW 0 (cv ++ [self])
              (by
                rw [List.count_append]
                simp [List.count_eq_zero.mpr hcv0])
              timedOut qf' hw

/-- C5, witness: a semaphore at value 0 with an empty queue times out
at once, and the condition variable scenario of the C4 witness times
out; in both, thread 1 ends unqueued. -/
theorem timedwait_timeout_not_queued_witness :
    ((1 : Tid) ∉ ({ value := 0, waiters := [], initialized := true } : Sem).waiters) ∧
    ((1 : Tid) ∉ ([] : List Tid)) :=
  ⟨(timedwait_timeout_not_queued 1 { value := 0, waiters := [], initialized := true }
      0 (fun _ => 0) (fun _ => 0) (fun _ _ => { value := 0, waiters := [], initialized := true })
      1 (by simp) (fun _ _ => by simp) [] mheldEx (fun _ => 0) (fun _ _ => [])
      (fun _ x => x) 1 1 (by simp) (fun _ _ => by simp)).1
      UTHREAD_ETIMEDOUT { value := 0, waiters := [], initialized := true } rfl rfl,
   (timedwait_timeout_not_queued 1 { value := 0, waiters := [], initialized := true }
      0 (fun _ => 0) (fun _ => 0) (fun _ _ => { value := 0, waiters := [], initialized := true })
      1 (by simp) (fun _ _ => by simp) [] mheldEx (fun _ => 0) (fun _ _ => [])
      (fun _ x => x) 1 1 (by simp) (fun _ _ => by simp)).2
      UTHREAD_ETIMEDOUT [] mheldEx rfl rfl⟩

theorem find_highest_scan_some (bm : Nat) :
    ∀ (i h : Nat), find_highest_scan bm i = some h →
      h ≤ i ∧ bm.testBit h = true ∧ ∀ j, h < j → j ≤ i → bm.testBit j = false := by
  intro i
  induction i with
  | zero =>
      intro h hfind
      rw [find_highest_scan] at hfind
      split_ifs at hfind with hb
      · obtain rfl : (0 : Nat) = h := Option.some_injective _ hfind
        exact ⟨le_refl 0, hb, fun j hj hj' => absurd (lt_of_lt_of_le hj hj') (by omega)⟩
  | succ i ih =>
      intro h hfind
      rw [find_highest_scan] at hfind
      split_ifs at hfind with hb
      · obtain rfl : i + 1 = h := Option.some_injective _ hfind
        exact ⟨le_refl _, hb, fun j hj hj' => absurd (lt_of_lt_of_le hj hj') (by omega)⟩
      · obtain ⟨h1, h2, h3⟩ := ih h hfind
        refine ⟨by omega, h2, fun j hj hj' => ?_⟩
        rcases Nat.lt_or_ge j (i + 1) with hlt | hge
        · exact h3 j hj (by omega)
        · have : j = i + 1 := by omega
          subst this
          exact Bool.not_eq_true _ ▸ hb

theorem find_highest_scan_none (bm : Nat) :
    ∀ i, find_highest_scan bm i = none → ∀ j, j ≤ i → bm.testBit j = false := by
  intro i
  induction i with
  | zero =>
      intro hfind j hj
      rw [find_highest_scan] at hfind
      split_ifs at hfind with hb
      obtain rfl : j = 0 := by omega
      exact Bool.not_eq_true _ ▸ hb
  | succ i ih =>
      intro hfind j hj
      rw [find_highest_scan] at hfind
      split_ifs at hfind with hb
      rcases Nat.lt_or_ge j (i + 1) with hlt | hge
      · exact ih hfind j (by omega)
      · have : j = i + 1 := by omega
        subst this
        exact Bool.not_eq_true _ ▸ hb

theorem find_highest_priority_spec (bm : Nat) (hbm : bm < 2 ^ 32) :
    (find_highest_priority bm = none ↔ bm = 0) ∧
    (∀ h, find_highest_priority bm = some h →
      h < 32 ∧ bm.testBit h = true ∧ ∀ j, h < j → bm.testBit j = false) := by
  constructor
  · constructor
    · intro hnone
      unfold find_highest_priority at hnone
      split_ifs at hnone with h0
      · exact h0
      · refine Nat.eq_of_testBit_eq fun j => ?_
        rw [Nat.zero_testBit]
        rcases Nat.lt_or_ge j 32 with hlt | hge
        · exact find_highest_scan_none bm 31 hnone j (by omega)
        · exact Nat.testBit_eq_false_of_lt (lt_of_lt_of_le hbm (Nat.pow_le_pow_right (by omega) hge))
    · intro h0
      subst h0
      rfl
  · intro h hfind
    unfold find_highest_priority at hfind
    split_ifs at hfind with h0
    obtain ⟨h1, h2, h3⟩ := find_highest_scan_some bm 31 h hfind
    refine ⟨by omega, h2, fun j hj => ?_⟩
    rcases Nat.lt_or_ge j 32 with hlt | hge
    · exact h3 j hj (by omega)
    · exact Nat.testBit_eq_false_of_lt (lt_of_lt_of_le hbm (Nat.pow_le_pow_right (by omega) hge))

theorem testBit_set_bit (bm p i : Nat) :
    (bm ||| (1 <<< p)).testBit i = (bm.testBit i || decide (i = p)) := by
  rw [Nat.testBit_or, Nat.one_shiftLeft, Nat.testBit_two_pow]
  by_cases h : i = p
  · subst h; simp
  · simp [h, Ne.symm h]

theorem testBit_clear_bit (bm p i : Nat) (hi : i < 32) :
    (bm &&& (U32mask ^^^ (1 <<< p))).testBit i = (bm.testBit i && !(decide (i = p))) := by
  rw [Nat.testBit_and, Nat.testBit_xor, Nat.one_shiftLeft, Nat.testBit_two_pow]
  unfold U32mask
  rw [Nat.testBit_two_pow_sub_one]
  by_cases h : i = p
  · subst h; simp [hi]
  · simp [h, Ne.symm h, hi]

theorem set_bit_lt (bm p : Nat) (hbm : bm < 2 ^ 32) (hp : p < 32) :
    bm ||| (1 <<< p) < 2 ^ 32 := by
  apply Nat.or_lt_two_pow hbm
  rw [Nat.one_shiftLeft]
  exact Nat.pow_lt_pow_right (by omega) hp

theorem clear_bit_lt (bm x : Nat) (hbm : bm < 2 ^ 32) : bm &&& x < 2 ^ 32 :=
  lt_of_le_of_lt Nat.and_le_left hbm

theorem clampPrio_lt (p : Int) : clampPrio p < 32 := by
  unfold clampPrio
  split_ifs with h1 h2
  · omega
  · omega
  · push_neg at h1 h2
    omega

theorem add_preserves_inv (st : PrioState) (t : Tid) (p : Nat)
    (hp : p < 32) (hinv : PrioInv st) :
    PrioInv (add_to_priority_queue st t p) := by
  obtain ⟨hb, hc, hz⟩ := hinv
  unfold add_to_priority_queue
  split_ifs with he
  · refine ⟨set_bit_lt st.bitmap p hb hp, fun i hi => ?_, fun i hi => ?_⟩
    · show (st.bitmap ||| (1 <<< p)).testBit i = true ↔
        Function.update st.queues p [t] i ≠ []
      rw [testBit_set_bit, Function.update_apply]
      by_cases hip : i = p
      · subst hip; simp
      · simp [hip, hc i hi]
    · show Function.update st.queues p [t] i = []
      rw [Function.update_apply, if_neg (by omega)]
      exact hz i hi
  · refine ⟨hb, fun i hi => ?_, fun i hi => ?_⟩
    · show st.bitmap.testBit i = true ↔
        Function.update st.queues p (st.queues p ++ [t]) i ≠ []
      rw [Function.update_apply]
      by_cases hip : i = p
      · subst hip
        simp only [if_pos rfl]
        constructor
        · intro _; simp
        · intro _; exact (hc i hi).mpr he
      · rw [if_neg hip]
        exact hc i hi
    · show Function.update st.queues p (st.queues p ++ [t]) i = []
      rw [Function.update_apply, if_neg (by omega)]
      exact hz i hi

theorem remove_preserves_inv (st : PrioState) (t : Tid) (p : Nat)
    (hp : p < 32) (hinv : PrioInv st) :
    PrioInv (remove_from_priority_queue st t p) := by
  obtain ⟨hb, hc, hz⟩ := hinv
  unfold remove_from_priority_queue
  refine ⟨?_, fun i hi => ?_, fun i hi => ?_⟩
  · show (if (st.queues p).erase t = [] then
        st.bitmap &&& (U32mask ^^^ (1 <<< p)) else st.bitmap) < 2 ^ 32
    split_ifs
    · exact clear_bit_lt _ _ hb
    · exact hb
  · show (if (st.queues p).erase t = [] then
        st.bitmap &&& (U32mask ^^^ (1 <<< p)) else st.bitmap).testBit i = true ↔
      Function.update st.queues p ((st.queues p).erase t) i ≠ []
    rw [Function.update_apply]
    by_cases hip : i = p
    · subst hip
      rw [if_pos rfl]
      split_ifs with he
      · rw [testBit_clear_bit _ _ _ hi]
        simp [he]
      · constructor
        · intro _; exact he
        · intro _
          rcases hq : st.queues i with _ | ⟨a, l⟩
          · rw [hq] at he; simp at he
          · exact (hc i hi).mpr (by rw [hq]; simp)
    · rw [if_neg hip]
      split_ifs with he
      · rw [testBit_clear_bit _ _ _ hi]
        simp [hip, hc i hi]
      · exact hc i hi
  · show Function.update st.queues p ((st.queues p).erase t) i = []
    rw [Function.update_apply]
    by_cases hip : i = p
    · subst hip; omega
    · rw [if_neg hip]
      exact hz i hi

theorem prioReach_inv (st : PrioState) (hre : PrioReach st) : PrioInv st := by
  induction hre with
  | init =>
      refine ⟨by norm_num [prioInit], fun i hi => ?_, fun i hi => rfl⟩
      simp [prioInit, Nat.zero_testBit]
  | enqueue st t p hre hfresh ih =>
      unfold priority_enqueue
      have h := add_preserves_inv st t (clampPrio p) (clampPrio_lt p) ih
      exact ⟨h.1, h.2.1, h.2.2⟩
  | dequeue st hre ih =>
      unfold priority_dequeue
      cases hf : find_highest_priority st.bitmap with
      | none => exact ih
      | some h =>
          dsimp only
          have hspec := (find_highest_priority_spec st.bitmap ih.1).2 h hf
          cases hq : st.queues h with
          | nil => exact ih
          | cons a l =>
              dsimp only
              have hrem := remove_preserves_inv st a h hspec.1 ih
              exact ⟨hrem.1, hrem.2.1, hrem.2.2⟩
  | removeOp st t p hre ih =>
      unfold priority_remove
      split_ifs with hmem
      · have h := remove_preserves_inv st t (clampPrio p) (clampPrio_lt p) ih
        exact ⟨h.1, h.2.1, h.2.2⟩
      · cases hfind : (List.range UTHREAD_PRIORITY_LEVELS).find?
            (fun i => decide (t ∈ st.queues i)) with
        | none => exact ih
        | some i =>
            have hi : i < 32 := by
              have hmemr := List.mem_range.mp (List.mem_of_find?_eq_some hfind)
              simpa [UTHREAD_PRIORITY_LEVELS] using hmemr
            have h := remove_preserves_inv st t i hi ih
            exact ⟨h.1, h.2.1, h.2.2⟩

theorem add_preserves_disj (st : PrioState) (t : Tid) (p : Nat)
    (hfresh : ∀ i, t ∉ st.queues i) (hd : PrioDisj st) :
    PrioDisj (add_to_priority_queue st t p) := by
  obtain ⟨hn, hx⟩ := hd
  unfold add_to_priority_queue
  split_ifs with he
  · refine ⟨fun i => ?_, fun i j hij x hxi => ?_⟩
    · show (Function.update st.queues p [t] i).Nodup
      rw [Function.update_apply]
      split_ifs
      · exact List.nodup_singleton t
      · exact hn i
    · show x ∉ Function.update st.queues p [t] j
      have hxi' : x ∈ Function.update st.queues p [t] i := hxi
      clear hxi
      rw [Function.update_apply] at hxi'
      rw [Function.update_apply]
      by_cases hi : i = p
      · rw [if_pos hi] at hxi'
        obtain rfl : x = t := by simpa using hxi'
        rw [if_neg (by omega : ¬ j = p)]
        exact hfresh j
      · rw [if_neg hi] at hxi'
        by_cases hj : j = p
        · rw [if_pos hj]
          simp only [List.mem_singleton]
          rintro rfl
          exact hfresh i hxi'
        · rw [if_neg hj]
          exact hx i j hij x hxi'
  · refine ⟨fun i => ?_, fun i j hij x hxi => ?_⟩
    · show (Function.update st.queues p (st.queues p ++ [t]) i).Nodup
      rw [Function.update_apply]
      split_ifs with hi
      · subst hi
        rw [List.nodup_append]
        refine ⟨hn _, List.nodup_singleton t, fun a ha => ?_⟩
        simp only [List.mem_singleton]
        rintro rfl
        exact hfresh _ ha
      · exact hn i
    · show x ∉ Function.update st.queues p (st.queues p ++ [t]) j
      have hxi' : x ∈ Function.update st.queues p (st.queues p ++ [t]) i := hxi
      clear hxi
      rw [Function.update_apply] at hxi'
      rw [Function.update_apply]
      by_cases hi : i = p
      · rw [if_pos hi] at hxi'
        rw [if_neg (by omega : ¬ j = p)]
        rcases List.mem_append.mp hxi' with hq | hsing
        · exact hx p j (hi ▸ hij) x hq
        · obtain rfl : x = t := by simpa using hsing
          exact hfresh j
      · rw [if_neg hi] at hxi'
        by_cases hj : j = p
        · rw [if_pos hj]
          intro hxj
          rcases List.mem_append.mp hxj with hq | hsing
          · exact hx i p (hj ▸ hij) x hxi' hq
          · obtain rfl : x = t := by simpa using hsing
            exact hfresh i hxi'
        · rw [if_neg hj]
          exact hx i j hij x hxi'

theorem remove_preserves_disj (st : PrioState) (t : Tid) (p : Nat)
    (hd : PrioDisj st) :
    PrioDisj (remove_from_priority_queue st t p) := by
  obtain ⟨hn, hx⟩ := hd
  refine ⟨fun i => ?_, fun i j hij x hxi => ?_⟩
  · show (Function.update st.queues p ((st.queues p).erase t) i).Nodup
    rw [Function.update_apply]
    split_ifs
    · exact (hn p).erase t
    · exact hn i
  · show x ∉ Function.update st.queues p ((st.queues p).erase t) j
    have hxi' : x ∈ Function.update st.queues p ((st.queues p).erase t) i := hxi
    clear hxi
    rw [Function.update_apply] at hxi'
    rw [Function.update_apply]
    by_cases hi : i = p
    · rw [if_pos hi] at hxi'
      rw [if_neg (by omega : ¬ j = p)]
      exact hx p j (hi ▸ hij) x (List.mem_of_mem_erase hxi')
    · rw [if_neg hi] at hxi'
      by_cases hj : j = p
      · rw [if_pos hj]
        exact fun hxj => hx i p (hj ▸ hij) x hxi' (List.mem_of_mem_erase hxj)
      · rw [if_neg hj]
        exact hx i j hij x hxi'

theorem prioReach_disj (st : PrioState) (hre : PrioReach st) : PrioDisj st := by
  induction hre with
  | init => exact ⟨fun i => List.nodup_nil, fun i j hij x hxi => by simp [prioInit] at hxi⟩
  | enqueue st t p hre hfresh ih =>
      unfold priority_enqueue
      have h := add_preserves_disj st t (clampPrio p) hfresh ih
      exact ⟨h.1, h.2⟩
  | dequeue st hre ih =>
      unfold priority_dequeue
      cases hf : find_highest_priority st.bitmap with
      | none => exact ih
      | some h =>
          dsimp only
          cases hq : st.queues h with
          | nil => exact ih
          | cons a l =>
              dsimp only
              have hrem := remove_preserves_disj st a h ih
              exact ⟨hrem.1, hrem.2⟩
  | removeOp st t p hre ih =>
      unfold priority_remove
      split_ifs with hmem
      · have h := remove_preserves_disj st t (clampPrio p) ih
        exact ⟨h.1, h.2⟩
      · cases hfind : (List.range UTHREAD_PRIORITY_LEVELS).find?
            (fun i => decide (t ∈ st.queues i)) with
        | none => exact ih
        | some i =>
            have h := remove_preserves_disj st t i ih
            exact ⟨h.1, h.2⟩

theorem find_highest_priority_eq_some (bm : Nat) (hbm : bm < 2 ^ 32)
    (h : Nat) (hh : h < 32) (hset : bm.testBit h = true)
    (habove : ∀ j, h < j → bm.testBit j = false) :
    find_highest_priority bm = some h := by
  cases hf : find_highest_priority bm with
  | none =>
      have h0 := ((find_highest_priority_spec bm hbm).1).mp hf
      rw [h0, Nat.zero_testBit] at hset
      exact absurd hset (by simp)
  | some h' =>
      obtain ⟨hh', hset', habove'⟩ := (find_highest_priority_spec bm hbm).2 h' hf
      rcases Nat.lt_trichotomy h h' with hlt | heq | hgt
      · rw [habove h' hlt] at hset'
        exact absurd hset' (by simp)
      · rw [heq]
      · rw [habove' h hgt] at hset
        exact absurd hset (by simp)

/-- C7.  In every reachable priority-queue state: (1) `priority_dequeue`
returns null exactly when all 32 queues are empty; (2) when queue `h`
is non-empty and every higher-indexed queue is empty, it removes and
returns the FIFO head of queue `h`; and therefore (3) it never returns
a thread linked at priority `p` while some queue of strictly higher
priority is non-empty. -/
theorem priority_dequeue_highest (st : PrioState) (hre : PrioReach st) :
    ((priority_dequeue st).1 = none ↔ ∀ i, st.queues i = []) ∧
    (∀ (h : Nat) (a : Tid) (l : List Tid), h < 32 → st.queues h = a :: l →
        (∀ j, h < j → st.queues j = []) →
        priority_dequeue st =
          (some a, { remove_from_priority_queue st a h with count := st.count - 1 })) ∧
    (∀ (p q : Nat) (x : Tid), x ∈ st.queues p → p < q → st.queues q ≠ [] →
        (priority_dequeue st).1 ≠ some x) := by
  obtain ⟨hb, hc, hz⟩ := prioReach_inv st hre
  have hd := prioReach_disj st hre
  refine ⟨?_, ?_, ?_⟩
  · unfold priority_dequeue
    cases hf : find_highest_priority st.bitmap with
    | none =>
        dsimp only
        constructor
        · intro _ i
          have h0 := (find_highest_priority_spec st.bitmap hb).1.mp hf
          rcases Nat.lt_or_ge i 32 with hlt | hge
          · by_contra hne
            have hbit := (hc i hlt).mpr hne
            rw [h0, Nat.zero_testBit] at hbit
            exact Bool.false_ne_true hbit
          · exact hz i hge
        · intro _
          rfl
    | some h =>
        dsimp only
        obtain ⟨hh, hset, -⟩ := (find_highest_priority_spec st.bitmap hb).2 h hf
        have hne := (hc h hh).mp hset
        cases hq : st.queues h with
        | nil => exact absurd hq hne
        | cons a l =>
            dsimp only
            constructor
            · intro habs
              exact absurd habs (by simp)
            · intro hall
              exact absurd ((hall h).symm.trans hq) (fun hcon => List.noConfusion hcon)
  · intro h a l hh hq hab
    unfold priority_dequeue
    have hfind : find_highest_priority st.bitmap = some h := by
      apply find_highest_priority_eq_some st.bitmap hb h hh
      · exact (hc h hh).mpr (by rw [hq]; simp)
      · intro j hj
        rcases Nat.lt_or_ge j 32 with hlt | hge
        · cases hbit : st.bitmap.testBit j with
          | false => rfl
          | true => exact absurd (hab j hj) ((hc j hlt).mp hbit)
        · exact Nat.testBit_eq_false_of_lt
            (lt_of_lt_of_le hb (Nat.pow_le_pow_right (by omega) hge))
    rw [hfind]
    dsimp only
    rw [hq]
  · intro p q x hxp hpq hqne habs
    unfold priority_dequeue at habs
    cases hf : find_highest_priority st.bitmap with
    | none => rw [hf] at habs; simp at habs
    | some h =>
        rw [hf] at habs
        dsimp only at habs
        obtain ⟨hh, hset, habove⟩ := (find_highest_priority_spec st.bitmap hb).2 h hf
        cases hq2 : st.queues h with
        | nil => rw [hq2] at habs; simp at habs
        | cons a l =>
            rw [hq2] at habs
            dsimp only at habs
            obtain rfl : a = x := by simpa using habs
            have hah : a ∈ st.queues h := by rw [hq2]; exact List.mem_cons_self a l
            have hq32 : q < 32 := by
              by_contra hge
              push_neg at hge
              exact hqne (hz q hge)
            have hqh : q ≤ h := by
              by_contra hgt
              push_neg at hgt
              refine hqne ?_
              by_contra hne
              have hbit := (hc q hq32).mpr hne
              rw [habove q hgt] at hbit
              exact Bool.false_ne_true hbit
            exact (hd.2 p h (by omega) a hxp) hah

theorem stEx_queues : stEx.queues = Function.update (fun _ => []) 5 [10] := rfl

/-- C7, witness: with only thread 10 queued at priority 5, dequeue
returns thread 10 and unlinks it. -/
theorem priority_dequeue_highest_witness :
    priority_dequeue stEx =
      (some 10, { remove_from_priority_queue stEx 10 5 with count := stEx.count - 1 }) := by
  have hre : PrioReach stEx :=
    PrioReach.enqueue prioInit 10 5 PrioReach.init (fun i => by simp [prioInit])
  exact (priority_dequeue_highest stEx hre).2.1 5 10 [] (by norm_num)
    (by rw [stEx_queues, Function.update_apply, if_pos rfl])
    (fun j hj => by rw [stEx_queues, Function.update_apply, if_neg (by omega)])

end LibUThread
